import Mathlib

/-!
# Verification of the fprime-data-tool core (`fpdt.py`)

Shallow embedding of the streaming binary-telemetry codec of
`fprime-data-tool`.  Byte streams are modelled as a list of byte values
(`Nat`, each conceptually `< 256`) together with a read position, matching
Python's `io.BytesIO` / file objects as the source uses them.  Fallible
decoders return `Except Err`; Python exceptions are mapped one-to-one to
`Err` constructors:

* `BrokenPipeError` (the source's end-of-stream signal) → `Err.endOfStream`
* `struct.error` (raised by `struct.unpack` on a short buffer) → `Err.structError`
* `ValueError` (raised by an `enum.IntEnum` constructor on an unknown value)
  → `Err.valueError`
* `KeyError` (raised explicitly by `FilePacket.decode`/`encode`) → `Err.keyError`
* `UnicodeDecodeError` (raised by `bytes.decode('ascii')` on a byte ≥ 0x80)
  → `Err.unicodeError`
* a failing `assert` statement → `Err.assertionError`

All decoders are modelled without an FSW dictionary (`fsw_dict=None` in the
source), which skips every dictionary lookup branch; none of the verified
claims involves a dictionary.
-/

namespace Fpdt

/-- The Python exceptions that the decoders of `fpdt.py` can raise. -/
inductive Err where
  | endOfStream
  | structError
  | valueError
  | keyError
  | unicodeError
  | assertionError
deriving DecidableEq

/-- A binary input stream: backing bytes plus the current read position.
Mirrors `io.BytesIO(data)` after `read`s have advanced the position. -/
structure ByteStream where
  data : List Nat
  pos : Nat
deriving DecidableEq

/-- The bytes remaining to be read. -/
def ByteStream.rem (s : ByteStream) : List Nat :=
  s.data.drop s.pos

/-- `istream.read(n)` for `n ≥ 0`: returns *up to* `n` bytes (fewer when the
stream is near its end) and advances the position by the number of bytes
actually returned. -/
def ByteStream.read (s : ByteStream) (n : Nat) : List Nat × ByteStream :=
  let chunk := (s.data.drop s.pos).take n
  (chunk, ⟨s.data, s.pos + chunk.length⟩)

/-- `istream.read(-1)` / `istream.read()` : read all remaining bytes. -/
def ByteStream.readRest (s : ByteStream) : List Nat × ByteStream :=
  let chunk := s.data.drop s.pos
  (chunk, ⟨s.data, s.pos + chunk.length⟩)

/-- Big-endian unsigned interpretation of a byte string, as performed by
`struct.unpack('>H' | '>I' | ...)`. -/
def beNat (l : List Nat) : Nat :=
  l.foldl (fun acc b => acc * 256 + b) 0

/-- Big-endian encoding of `v` into `width` bytes, as performed by
`struct.pack` for an in-range unsigned value. -/
def encBE (width v : Nat) : List Nat :=
  (List.range width).reverse.map fun i => v / 256 ^ i % 256

/-- `FundamentalType.decode` from `make_fundamental_type`: read exactly
`width` bytes; a zero-byte read raises `BrokenPipeError`; a short (but
non-empty) read reaches `struct.unpack`, which raises `struct.error`;
otherwise the value is `interp` of the bytes read (`struct.unpack`).
`interp` abstracts the struct format's value interpretation so that one
definition covers the signed/unsigned/float instantiations. -/
def FundamentalType.decode {V : Type} (width : Nat) (interp : List Nat → V)
    (s : ByteStream) : Except Err (V × ByteStream) :=
  let r := s.read width
  if r.1.length = 0 then .error .endOfStream
  else if r.1.length < width then .error .structError
  else .ok (interp r.1, r.2)

/-- The `U8` codec (`struct` format `>B`). -/
def U8.decode (s : ByteStream) : Except Err (Nat × ByteStream) :=
  FundamentalType.decode 1 beNat s

/-- The `U16` codec (`struct` format `>H`). -/
def U16.decode (s : ByteStream) : Except Err (Nat × ByteStream) :=
  FundamentalType.decode 2 beNat s

/-- The `U32` codec (`struct` format `>I`). -/
def U32.decode (s : ByteStream) : Except Err (Nat × ByteStream) :=
  FundamentalType.decode 4 beNat s

/-- The F Prime configurable flags that the verified claims exercise
(`FW_USE_TIME_BASE`, `FW_USE_TIME_CONTEXT`). -/
structure Config where
  useTimeBase : Bool
  useTimeContext : Bool
deriving DecidableEq

/-- The default configuration: both Time flags true. -/
def defaultConfig : Config := ⟨true, true⟩

/-- `Fw::Time` value.  `base`/`context` are present exactly when the
corresponding configuration flag is set (the source sets the attributes
conditionally). -/
structure Time where
  base : Option Nat
  context : Option Nat
  seconds : Nat
  microseconds : Nat
deriving DecidableEq

/-- A field decoded only when its configuration flag is set (the
`if FW_USE_TIME_BASE:` / `if FW_USE_TIME_CONTEXT:` guards of
`Time.decode`). -/
def decodeOptional (b : Bool)
    (dec : ByteStream → Except Err (Nat × ByteStream)) (s : ByteStream) :
    Except Err (Option Nat × ByteStream) :=
  if b then
    match dec s with
    | .error e => .error e
    | .ok (v, s') => .ok (some v, s')
  else .ok (none, s)

/-- `Time.decode`: conditionally read `base` (`FwTimeBaseStoreType`,
default `U16`) and `context` (`FwTimeContextStoreType`, default `U8`),
then `seconds` and `microseconds` as `U32`. -/
def Time.decode (cfg : Config) (s : ByteStream) :
    Except Err (Time × ByteStream) :=
  match decodeOptional cfg.useTimeBase U16.decode s with
  | .error e => .error e
  | .ok (base, s1) =>
    match decodeOptional cfg.useTimeContext U8.decode s1 with
    | .error e => .error e
    | .ok (context, s2) =>
      match U32.decode s2 with
      | .error e => .error e
      | .ok (seconds, s3) =>
        match U32.decode s3 with
        | .error e => .error e
        | .ok (microseconds, s4) =>
          .ok (⟨base, context, seconds, microseconds⟩, s4)

/-- `Time.encode` as written in the source.  After asserting the member
types and writing `base` and `context`, the source executes
`self.seconds = U32.decode(ostream, fsw_dict)` (and likewise for
`microseconds`) — it *reads* from the output stream instead of encoding.
The output stream's position is at its end (all writes are sequential),
so that read returns zero bytes and `U32.decode` raises
`BrokenPipeError`.  The result is the final output buffer paired with
the exception raised, if any. -/
def Time.encode (cfg : Config) (t : Time) (out : List Nat) :
    List Nat × Option Err :=
  if cfg.useTimeBase ∧ t.base = none then (out, some .assertionError)
  else if cfg.useTimeContext ∧ t.context = none then (out, some .assertionError)
  else
    let out1 := if cfg.useTimeBase then out ++ encBE 2 (t.base.getD 0) else out
    let out2 := if cfg.useTimeContext then out1 ++ encBE 1 (t.context.getD 0)
                else out1
    (out2, some .endOfStream)

/-- `Buffer.decode(istream, fsw_dict, length)`: `length == 0` yields an
empty buffer without reading; a negative `length` (the default `-1`)
reads the rest of the stream; a positive `length` reads up to that many
bytes.  Never raises. -/
def Buffer.decode (length : Int) (s : ByteStream) : List Nat × ByteStream :=
  if length = 0 then ([], s)
  else if length < 0 then s.readRest
  else s.read length.toNat

/-- Whether a byte string decodes as ASCII (`bytes.decode('ascii')`). -/
def asciiOk (l : List Nat) : Bool :=
  l.all (· < 128)

/-- `AsciiBuffer.decode`: a `Buffer.decode` followed by an ASCII decode of
the bytes read. -/
def AsciiBuffer.decode (length : Int) (s : ByteStream) :
    Except Err (List Nat × ByteStream) :=
  let r := Buffer.decode length s
  if asciiOk r.1 then .ok r else .error .unicodeError

/-- A decoded length-prefixed `String` value: the decoded `FwBuffSizeType`
length field and the payload bytes actually read (ASCII-validated). -/
structure StringVal where
  length : Nat
  string : List Nat
deriving DecidableEq

/-- `String.decode(istream, fsw_dict, length)`: read the length field
(`FwBuffSizeType`, default `U16`); if the *parameter* `length` is zero the
payload is empty without reading, otherwise read `self.length.value`
bytes; finally ASCII-decode the payload. -/
def String.decode (length : Int) (s : ByteStream) :
    Except Err (StringVal × ByteStream) :=
  match U16.decode s with
  | .error e => .error e
  | .ok (lenField, s1) =>
    let r := if length = 0 then (([] : List Nat), s1) else s1.read lenField
    if asciiOk r.1 then .ok (⟨lenField, r.1⟩, r.2) else .error .unicodeError

/-- `String.encode`: write the stored length field, then the ASCII payload
bytes — with no consistency check between the two. -/
def String.encode (v : StringVal) (out : List Nat) : List Nat :=
  out ++ encBE 2 v.length ++ v.string

/-! ## Sync-word scanning (`read_until_sync_word`) -/

/-- One full pass of the `read_until_sync_word` loop body over a byte just
read, returning the updated `sync_word_index`.  On a mismatch at index
`k > 0` the source sets `sync_word_index = 0` and `read_next = False`: the
*same* byte is then compared against `sync_word[0]` in the next loop
iteration, after which `read_next` is `True` again on every path, so that
re-examination is inlined here as the two inner `if`s. -/
def syncStep (sync : List Nat) (k b : Nat) : Nat :=
  if b = sync.getD k 256 then k + 1
  else if 0 < k then (if b = sync.getD 0 256 then 1 else 0)
  else 0

/-- The `read_until_sync_word` loop over the remaining bytes of the stream,
with `sync_word_index = k`: returns the bytes left after the sync word
(`none` when the stream ends first, i.e. `BrokenPipeError`). -/
def scanList (sync : List Nat) : Nat → List Nat → Option (List Nat)
  | k, [] => if sync.length ≤ k then some [] else none
  | k, b :: rest =>
    if sync.length ≤ k then some (b :: rest)
    else scanList sync (syncStep sync k b) rest

/-- `read_until_sync_word(istream, sync_word)` on a positioned stream. -/
def readUntilSyncWord (sync : List Nat) (s : ByteStream) :
    Except Err ByteStream :=
  match scanList sync 0 s.rem with
  | none => .error .endOfStream
  | some r => .ok ⟨s.data, s.pos + (s.rem.length - r.length)⟩

/-- The 4-byte sync word of `FprimeGdsStream` (`bytes.fromhex('deadbeef')`). -/
def gdsSyncWord : List Nat := [0xde, 0xad, 0xbe, 0xef]

/-- The 1-byte sync word of `PrmDbRecord` (`bytes.fromhex('a5')`). -/
def prmDbSyncWord : List Nat := [0xa5]

/-! ## Packet layer -/

/-- `Packet.Type`, the named `IntEnum` members. -/
inductive PacketType where
  | COMMAND | TELEM | LOG | FILE | PACKETIZED_TLM | IDLE | UNKNOWN
deriving DecidableEq

/-- Integer value of a named `Packet.Type` member. -/
def PacketType.val : PacketType → Nat
  | .COMMAND => 0
  | .TELEM => 1
  | .LOG => 2
  | .FILE => 3
  | .PACKETIZED_TLM => 4
  | .IDLE => 5
  | .UNKNOWN => 0xff

/-- The `Packet.Type(value)` enum constructor: a named member for a known
value, `none` (a `ValueError`) otherwise. -/
def PacketType.fromVal (v : Nat) : Option PacketType :=
  if v = 0 then some .COMMAND
  else if v = 1 then some .TELEM
  else if v = 2 then some .LOG
  else if v = 3 then some .FILE
  else if v = 4 then some .PACKETIZED_TLM
  else if v = 5 then some .IDLE
  else if v = 0xff then some .UNKNOWN
  else none

/-- The decoded `type` field of a `Packet`: either a named `Packet.Type`
member, or the `types.SimpleNamespace` with `name='INVALID'` fabricated in
the `except ValueError` branch, carrying the raw decoded integer. -/
inductive DecodedPacketType where
  | valid (t : PacketType)
  | invalid (v : Nat)
deriving DecidableEq

/-- `FilePacket.Type`, the named `IntEnum` members. -/
inductive FilePacketType where
  | START | DATA | END | CANCEL | NONE
deriving DecidableEq

/-- The `FilePacket.Type(value)` enum constructor. -/
def FilePacketType.fromVal (v : Nat) : Option FilePacketType :=
  if v = 0 then some .START
  else if v = 1 then some .DATA
  else if v = 2 then some .END
  else if v = 3 then some .CANCEL
  else if v = 255 then some .NONE
  else none

/-- A decoded `FilePacketPathName`: a `U8` length then that many ASCII
bytes. -/
structure FilePacketPathName where
  length : Nat
  value : List Nat
deriving DecidableEq

/-- `FilePacketPathName.decode`. -/
def FilePacketPathName.decode (s : ByteStream) :
    Except Err (FilePacketPathName × ByteStream) :=
  match U8.decode s with
  | .error e => .error e
  | .ok (len, s1) =>
    match AsciiBuffer.decode (len : Int) s1 with
    | .error e => .error e
    | .ok (val, s2) => .ok (⟨len, val⟩, s2)

/-- The payload of a decoded `FilePacket`, by sub-type. -/
inductive FilePacketPayload where
  | start (file_size : Nat) (source_path destination_path : FilePacketPathName)
  | data (byte_offset : Nat) (data_size : Nat) (payload : List Nat)
  | done (checksum : Nat)
  | cancel
deriving DecidableEq

/-- A decoded `FilePacket`. -/
structure FilePacket where
  type : FilePacketType
  sequence_index : Nat
  payload : FilePacketPayload
deriving DecidableEq

/-- `FilePacketStartPayload.decode`. -/
def FilePacketStartPayload.decode (s : ByteStream) :
    Except Err (FilePacketPayload × ByteStream) :=
  match U32.decode s with
  | .error e => .error e
  | .ok (file_size, s1) =>
    match FilePacketPathName.decode s1 with
    | .error e => .error e
    | .ok (src, s2) =>
      match FilePacketPathName.decode s2 with
      | .error e => .error e
      | .ok (dst, s3) => .ok (.start file_size src dst, s3)

/-- `FilePacketDataPayload.decode`. -/
def FilePacketDataPayload.decode (s : ByteStream) :
    Except Err (FilePacketPayload × ByteStream) :=
  match U32.decode s with
  | .error e => .error e
  | .ok (byte_offset, s1) =>
    match U16.decode s1 with
    | .error e => .error e
    | .ok (data_size, s2) =>
      let r := Buffer.decode (data_size : Int) s2
      .ok (.data byte_offset data_size r.1, r.2)

/-- `FilePacketEndPayload.decode`. -/
def FilePacketEndPayload.decode (s : ByteStream) :
    Except Err (FilePacketPayload × ByteStream) :=
  match U32.decode s with
  | .error e => .error e
  | .ok (checksum, s1) => .ok (.done checksum, s1)

/-- `FilePacket.decode`: decode the sub-type (`U8`-backed enum — an unknown
value raises `ValueError` in the enum constructor), then `sequence_index`
(`U32`), then dispatch on the sub-type; the `NONE` member reaches the
`else` branch, which raises `KeyError`. -/
def FilePacket.decode (s : ByteStream) : Except Err (FilePacket × ByteStream) :=
  match U8.decode s with
  | .error e => .error e
  | .ok (tv, s1) =>
    match FilePacketType.fromVal tv with
    | none => .error .valueError
    | some t =>
      match U32.decode s1 with
      | .error e => .error e
      | .ok (seq, s2) =>
        match t with
        | .START =>
          match FilePacketStartPayload.decode s2 with
          | .error e => .error e
          | .ok (p, s3) => .ok (⟨t, seq, p⟩, s3)
        | .DATA =>
          match FilePacketDataPayload.decode s2 with
          | .error e => .error e
          | .ok (p, s3) => .ok (⟨t, seq, p⟩, s3)
        | .END =>
          match FilePacketEndPayload.decode s2 with
          | .error e => .error e
          | .ok (p, s3) => .ok (⟨t, seq, p⟩, s3)
        | .CANCEL => .ok (⟨t, seq, .cancel⟩, s2)
        | .NONE => .error .keyError

/-- A decoded `CommandPacket` (no dictionary: `command`/`arguments` stay
`None`). -/
structure CommandPacket where
  opcode : Nat
  arguments_raw : List Nat
deriving DecidableEq

/-- `CommandPacket.decode`: `FwOpcodeType` (default `U32`) then
"read the rest". -/
def CommandPacket.decode (s : ByteStream) :
    Except Err (CommandPacket × ByteStream) :=
  match U32.decode s with
  | .error e => .error e
  | .ok (opcode, s1) =>
    let r := s1.readRest
    .ok (⟨opcode, r.1⟩, r.2)

/-- A decoded `TelemPacket` (no dictionary: `channel`/`value` stay `None`). -/
structure TelemPacket where
  id : Nat
  time : Time
  value_raw : List Nat
deriving DecidableEq

/-- `TelemPacket.decode`: `FwChanIdType` (default `U32`), `Time`, then
"read the rest". -/
def TelemPacket.decode (cfg : Config) (s : ByteStream) :
    Except Err (TelemPacket × ByteStream) :=
  match U32.decode s with
  | .error e => .error e
  | .ok (id, s1) =>
    match Time.decode cfg s1 with
    | .error e => .error e
    | .ok (time, s2) =>
      let r := s2.readRest
      .ok (⟨id, time, r.1⟩, r.2)

/-- A decoded `EventPacket` (no dictionary: `event`/`arguments` stay
`None`). -/
structure EventPacket where
  id : Nat
  time : Time
  arguments_raw : List Nat
deriving DecidableEq

/-- `EventPacket.decode`: `FwEventIdType` (default `U32`), `Time`, then
"read the rest". -/
def EventPacket.decode (cfg : Config) (s : ByteStream) :
    Except Err (EventPacket × ByteStream) :=
  match U32.decode s with
  | .error e => .error e
  | .ok (id, s1) =>
    match Time.decode cfg s1 with
    | .error e => .error e
    | .ok (time, s2) =>
      let r := s2.readRest
      .ok (⟨id, time, r.1⟩, r.2)

/-- The payload of a decoded `Packet`. -/
inductive PacketPayload where
  | command (c : CommandPacket)
  | telem (t : TelemPacket)
  | log (e : EventPacket)
  | file (f : FilePacket)
  | buffer (data : List Nat)
deriving DecidableEq

/-- A decoded `Packet`. -/
structure Packet where
  type : DecodedPacketType
  payload : PacketPayload
deriving DecidableEq

/-- `Packet.decode`: decode the `FwPacketDescriptorType` tag (default
`U32`); on a `ValueError` from the enum constructor, write a warning and
keep the raw integer (`name='INVALID'`); then dispatch.  The fabricated
namespace compares unequal to every named member, so an unknown tag — like
the named members `PACKETIZED_TLM`, `IDLE` and `UNKNOWN` — reaches the
`else` branch, which captures the rest of the (confined) stream as an
opaque `Buffer`.  The returned `Bool` records whether the unknown-type
warning was emitted. -/
def Packet.decode (cfg : Config) (s : ByteStream) :
    Except Err ((Packet × Bool) × ByteStream) :=
  match U32.decode s with
  | .error e => .error e
  | .ok (v, s1) =>
    match PacketType.fromVal v with
    | none =>
      let r := s1.readRest
      .ok ((⟨.invalid v, .buffer r.1⟩, true), r.2)
    | some t =>
      match t with
      | .COMMAND =>
        match CommandPacket.decode s1 with
        | .error e => .error e
        | .ok (c, s2) => .ok ((⟨.valid t, .command c⟩, false), s2)
      | .TELEM =>
        match TelemPacket.decode cfg s1 with
        | .error e => .error e
        | .ok (c, s2) => .ok ((⟨.valid t, .telem c⟩, false), s2)
      | .LOG =>
        match EventPacket.decode cfg s1 with
        | .error e => .error e
        | .ok (c, s2) => .ok ((⟨.valid t, .log c⟩, false), s2)
      | .FILE =>
        match FilePacket.decode s1 with
        | .error e => .error e
        | .ok (c, s2) => .ok ((⟨.valid t, .file c⟩, false), s2)
      | _ =>
        let r := s1.readRest
        .ok ((⟨.valid t, .buffer r.1⟩, false), r.2)

/-- The total size of the "read the rest" payload buffers of a decoded
packet: `arguments_raw` for COMMAND and LOG, `value_raw` for TELEM, the
opaque buffer for every other tag.  `FilePacket` payloads use explicit
length fields, not "read the rest". -/
def Packet.rawRestLen (p : Packet) : Nat :=
  match p.payload with
  | .command c => c.arguments_raw.length
  | .telem t => t.value_raw.length
  | .log e => e.arguments_raw.length
  | .file _ => 0
  | .buffer b => b.length

/-! ## Record framing -/

/-- A decoded length-prefixed record (`ComLoggerRecord` /
`FprimeGdsRecord`). -/
structure RecordVal where
  offset : Option Nat
  packet_size : Nat
  packet : Packet
deriving DecidableEq

/-- `Record.decode` from `create_record_class`, parameterized by the byte
width of the `packet_size` field (`2` for `ComLoggerRecord`, `4` for
`FprimeGdsRecord`) and by whether the stream is seekable: remember the
offset (or `None`), decode `packet_size`, slice off that many bytes into
an in-memory sub-stream, and decode the `Packet` from the sub-stream. -/
def Record.decode (szW : Nat) (seekable : Bool) (cfg : Config)
    (s : ByteStream) : Except Err ((RecordVal × Bool) × ByteStream) :=
  let offset : Option Nat := if seekable then some s.pos else none
  match FundamentalType.decode szW beNat s with
  | .error e => .error e
  | .ok (packet_size, s1) =>
    let r := s1.read packet_size
    match Packet.decode cfg ⟨r.1, 0⟩ with
    | .error e => .error e
    | .ok ((packet, warned), _) =>
      .ok ((⟨offset, packet_size, packet⟩, warned), r.2)

/-- `ComLoggerRecord.decode` (`packet_size_type = U16`). -/
def ComLoggerRecord.decode (seekable : Bool) (cfg : Config)
    (s : ByteStream) : Except Err ((RecordVal × Bool) × ByteStream) :=
  Record.decode 2 seekable cfg s

/-- `FprimeGdsRecord.decode` (`packet_size_type = U32`). -/
def FprimeGdsRecord.decode (seekable : Bool) (cfg : Config)
    (s : ByteStream) : Except Err ((RecordVal × Bool) × ByteStream) :=
  Record.decode 4 seekable cfg s

/-- A decoded `PrmDbRecord` (no dictionary: `parameter`/`value` stay
`None`). -/
structure PrmDbRecordVal where
  offset : Option Nat
  size : Nat
  id : Nat
  value_raw : List Nat
deriving DecidableEq

/-- `PrmDbRecord.decode`: remember the offset (or `None` on a non-seekable
stream) *before* scanning for the `A5` sync byte, then decode `size`
(`U32`), `id` (`FwPrmIdType`, default `U32`), and `size - 4` bytes of raw
parameter value. -/
def PrmDbRecord.decode (seekable : Bool) (s : ByteStream) :
    Except Err (PrmDbRecordVal × ByteStream) :=
  let offset : Option Nat := if seekable then some s.pos else none
  match readUntilSyncWord prmDbSyncWord s with
  | .error e => .error e
  | .ok s1 =>
    match U32.decode s1 with
    | .error e => .error e
    | .ok (size, s2) =>
      match U32.decode s2 with
      | .error e => .error e
      | .ok (id, s3) =>
        let r := Buffer.decode ((size : Int) - 4) s3
        .ok (⟨offset, size, id, r.1⟩, r.2)

/-- The record-processing main loop: repeatedly decode records until an
exception; `BrokenPipeError` is caught and terminates cleanly (result
`none`), while any other exception propagates out of the loop (result
`some e`) and no further records are processed.  Records decoded before
the exception were already printed, hence the list.  `fuel` bounds the
iteration count (the loop itself is unbounded). -/
def mainLoop {α : Type} (fuel : Nat)
    (dec : ByteStream → Except Err (α × ByteStream)) (s : ByteStream) :
    List α × Option Err :=
  match fuel with
  | 0 => ([], none)
  | fuel + 1 =>
    match dec s with
    | .error .endOfStream => ([], none)
    | .error e => ([], some e)
    | .ok (r, s') =>
      let rest := mainLoop fuel dec s'
      (r :: rest.1, rest.2)

/-! ## Stream and decoder lemmas -/

/-- A full read: when `n` bytes remain, `read n` returns exactly the next
`n` bytes and advances the position by `n`. -/
theorem ByteStream.read_of_le (s : ByteStream) {n : Nat}
    (h : n ≤ s.rem.length) :
    s.read n = (s.rem.take n, ⟨s.data, s.pos + n⟩) := by
  simp [ByteStream.read, ByteStream.rem] at h ⊢
  omega

/-- `readRest` returns the remaining bytes and moves the position to the
end of the data (the position never exceeds the length). -/
theorem ByteStream.readRest_eq (s : ByteStream) (h : s.pos ≤ s.data.length) :
    s.readRest = (s.rem, ⟨s.data, s.data.length⟩) := by
  simp [ByteStream.readRest, ByteStream.rem]
  omega

/-- A fundamental decode succeeds when at least `width > 0` bytes remain,
consuming exactly `width` bytes. -/
theorem fundamental_decode_of_le {V : Type} {width : Nat}
    (interp : List Nat → V) (s : ByteStream) (hw : 0 < width)
    (h : width ≤ s.rem.length) :
    FundamentalType.decode width interp s =
      .ok (interp (s.rem.take width), ⟨s.data, s.pos + width⟩) := by
  have hl : (s.rem.take width).length = width := by
    simp [List.length_take]
    omega
  rw [FundamentalType.decode, ByteStream.read_of_le s h]
  simp [hl, hw.ne']

theorem u8_decode_of_le (s : ByteStream) (h : 1 ≤ s.rem.length) :
    U8.decode s = .ok (beNat (s.rem.take 1), ⟨s.data, s.pos + 1⟩) :=
  fundamental_decode_of_le beNat s (by omega) h

theorem u16_decode_of_le (s : ByteStream) (h : 2 ≤ s.rem.length) :
    U16.decode s = .ok (beNat (s.rem.take 2), ⟨s.data, s.pos + 2⟩) :=
  fundamental_decode_of_le beNat s (by omega) h

theorem u32_decode_of_le (s : ByteStream) (h : 4 ≤ s.rem.length) :
    U32.decode s = .ok (beNat (s.rem.take 4), ⟨s.data, s.pos + 4⟩) :=
  fundamental_decode_of_le beNat s (by omega) h

/-- A fundamental decode never changes the backing data, only the
position, and the position does not decrease. -/
theorem fundamental_decode_data {V : Type} {width : Nat}
    {interp : List Nat → V} {s s' : ByteStream} {v : V}
    (h : FundamentalType.decode width interp s = .ok (v, s')) :
    s'.data = s.data ∧ s.pos ≤ s'.pos := by
  simp only [FundamentalType.decode, ByteStream.read] at h
  split at h
  · exact (Except.noConfusion h)
  · split at h
    · exact (Except.noConfusion h)
    · rw [Except.ok.injEq, Prod.mk.injEq] at h
      rw [← h.2]
      exact ⟨rfl, by simp⟩

/-- `decodeOptional` over a data-preserving decoder never changes the
backing data and never rewinds. -/
theorem optional_decode_data {b : Bool}
    {dec : ByteStream → Except Err (Nat × ByteStream)}
    {s s' : ByteStream} {v : Option Nat}
    (hdec : ∀ {u u' : ByteStream} {w : Nat}, dec u = .ok (w, u') →
      u'.data = u.data ∧ u.pos ≤ u'.pos)
    (h : decodeOptional b dec s = .ok (v, s')) :
    s'.data = s.data ∧ s.pos ≤ s'.pos := by
  unfold decodeOptional at h
  split at h
  · split at h
    · exact (Except.noConfusion h)
    next w u' heq =>
      rw [Except.ok.injEq, Prod.mk.injEq] at h
      rw [← h.2]
      exact hdec heq
  · rw [Except.ok.injEq, Prod.mk.injEq] at h
    rw [← h.2]
    exact ⟨rfl, le_refl _⟩

/-- `Time.decode` never changes the backing data and never rewinds. -/
theorem time_decode_data {cfg : Config} {s s' : ByteStream} {t : Time}
    (h : Time.decode cfg s = .ok (t, s')) :
    s'.data = s.data ∧ s.pos ≤ s'.pos := by
  unfold Time.decode at h
  split at h
  · exact (Except.noConfusion h)
  next base s1 heq1 =>
    have h1 := optional_decode_data
      (fun hu => fundamental_decode_data hu) heq1
    split at h
    · exact (Except.noConfusion h)
    next context s2 heq2 =>
      have h2 := optional_decode_data
        (fun hu => fundamental_decode_data hu) heq2
      split at h
      · exact (Except.noConfusion h)
      next seconds s3 heq3 =>
        have h3 := fundamental_decode_data heq3
        split at h
        · exact (Except.noConfusion h)
        next microseconds s4 heq4 =>
          have h4 := fundamental_decode_data heq4
          rw [Except.ok.injEq, Prod.mk.injEq] at h
          rw [← h.2]
          refine ⟨by rw [h4.1, h3.1, h2.1, h1.1], ?_⟩
          calc s.pos ≤ s1.pos := h1.2
            _ ≤ s2.pos := h2.2
            _ ≤ s3.pos := h3.2
            _ ≤ s4.pos := h4.2

/-! ## Claim C1 — codec round trips; `Time.encode` -/

/-- C1: FALSIFIED BY THE CODE (the spec's §9 marks `Time.encode` as an
apparent bug and mandates the symmetric behavior).  Under the default
configuration, `Time.encode` on the value
`base=0, context=0, seconds=1, microseconds=2` writes only the three
`base`/`context` bytes and then raises `BrokenPipeError` by executing
`U32.decode` against the output stream; decoding the bytes it wrote
cannot return the original value — it fails with `EndOfStream` — so
`decode(encode(v)) == v` does not hold for the `Time` codec. -/
theorem time_encode_decode_roundtrip_fails :
    Time.encode defaultConfig ⟨some 0, some 0, 1, 2⟩ [] =
      ([0, 0, 0], some .endOfStream) ∧
    Time.decode defaultConfig ⟨[0, 0, 0], 0⟩ = .error .endOfStream := by
  constructor
  · rfl
  · rfl

/-! ## Claim C3 — fundamental decode on short input -/

/-- C3 counterexample: a `U32` decode of a 2-byte stream (fewer than the
width 4, but more than zero) raises `struct.error` — the short read
passes the zero-length check and fails inside `struct.unpack` — not
`EndOfStream` as the claim states. -/
theorem fundamental_decode_short_counterexample :
    U32.decode ⟨[0, 1], 0⟩ = .error .structError ∧
      Err.structError ≠ Err.endOfStream := by
  exact ⟨rfl, by decide⟩

/-- C3 amended: for every fundamental codec of width `w > 0`, decode
raises `EndOfStream` exactly when zero bytes remain; with between 1 and
`w-1` bytes remaining it raises `struct.error` instead; and with at least
`w` bytes it consumes exactly `w` bytes and returns the decoded value. -/
theorem fundamental_decode_error_behavior {V : Type} (width : Nat)
    (interp : List Nat → V) (s : ByteStream) (hw : 0 < width) :
    (s.rem.length = 0 →
      FundamentalType.decode width interp s = .error .endOfStream) ∧
    (0 < s.rem.length → s.rem.length < width →
      FundamentalType.decode width interp s = .error .structError) ∧
    (width ≤ s.rem.length →
      FundamentalType.decode width interp s =
        .ok (interp (s.rem.take width), ⟨s.data, s.pos + width⟩)) := by
  refine ⟨?_, ?_, ?_⟩
  · intro h0
    simp only [FundamentalType.decode, ByteStream.read]
    have : ((s.data.drop s.pos).take width).length = 0 := by
      simp only [List.length_take]
      simp only [ByteStream.rem] at h0
      omega
    simp [this]
  · intro hpos hlt
    simp only [ByteStream.rem, List.length_drop] at hpos hlt
    simp only [FundamentalType.decode, ByteStream.read, List.length_take,
      List.length_drop]
    have hmin : min width (s.data.length - s.pos) = s.data.length - s.pos := by
      omega
    rw [hmin]
    have c1 : s.data.length - s.pos ≠ 0 := by omega
    simp [c1, hlt]
  · intro h
    exact fundamental_decode_of_le interp s hw h

/-- C3 witness: a `U32`-shaped instance of the amended theorem at a
5-byte stream: the decode succeeds, consumes 4 bytes, and returns the
big-endian value `0x01020304`. -/
theorem fundamental_decode_error_behavior_witness :
    FundamentalType.decode 4 beNat ⟨[1, 2, 3, 4, 5], 0⟩ =
      .ok (0x01020304, ⟨[1, 2, 3, 4, 5], 4⟩) :=
  (fundamental_decode_error_behavior 4 beNat ⟨[1, 2, 3, 4, 5], 0⟩
    (by decide)).2.2 (by decide)

/-! ## Claim C7 — the ComLoggerRecord LOG example -/

/-- C7 counterexample: under the default configuration the packet
descriptor is a 4-byte `U32`, so the spec's example input
`00 0D 02 00 00 04 D2 00 ...` decodes its descriptor from
`02 00 00 04` = `0x02000004`, an unknown tag — the record comes back
with the fabricated `INVALID` type carrying `33554436` and an opaque
buffer payload, not a LOG packet with event id 1234. -/
theorem comlogger_log_example_counterexample :
    Record.decode 2 true defaultConfig
      ⟨[0x00, 0x0D, 0x02, 0x00, 0x00, 0x04, 0xD2,
        0, 0, 0, 0, 0, 0, 0, 0, 0, 0, 0, 0], 0⟩ =
      .ok ((⟨some 0, 13,
             ⟨.invalid 33554436, .buffer [0xD2, 0, 0, 0, 0, 0, 0, 0, 0]⟩⟩,
            true),
           ⟨[0x00, 0x0D, 0x02, 0x00, 0x00, 0x04, 0xD2,
             0, 0, 0, 0, 0, 0, 0, 0, 0, 0, 0, 0], 15⟩) ∧
    DecodedPacketType.invalid 33554436 ≠ .valid .LOG := by
  exact ⟨rfl, by decide⟩

/-- C7 amended: the LOG record the claim describes is produced by the
input whose descriptor occupies four bytes and whose `packet_size` is
`0x13 = 19`: packet_size=19, packet.type=LOG, payload.id=1234,
payload.time.seconds=0, and empty `arguments_raw`. -/
theorem comlogger_log_example_amended :
    Record.decode 2 true defaultConfig
      ⟨[0x00, 0x13, 0x00, 0x00, 0x00, 0x02, 0x00, 0x00, 0x04, 0xD2,
        0, 0, 0, 0, 0, 0, 0, 0, 0, 0, 0], 0⟩ =
      .ok ((⟨some 0, 19,
             ⟨.valid .LOG, .log ⟨1234, ⟨some 0, some 0, 0, 0⟩, []⟩⟩⟩,
            false),
           ⟨[0x00, 0x13, 0x00, 0x00, 0x00, 0x02, 0x00, 0x00, 0x04, 0xD2,
             0, 0, 0, 0, 0, 0, 0, 0, 0, 0, 0], 21⟩) := by
  rfl

/-! ## Claim C8 — String length-field invariant -/

/-- C8 counterexample: with decode length parameter `0`, `String.decode`
still decodes the length field from the stream (here `5`) but reads zero
payload bytes, so the decoded value violates
`length = |payload bytes read|`. -/
theorem string_decode_length_param_zero_counterexample :
    String.decode 0 ⟨[0, 5, 65, 66, 67, 68, 69], 0⟩ =
      .ok (⟨5, []⟩, ⟨[0, 5, 65, 66, 67, 68, 69], 2⟩) ∧
    (5 : Nat) ≠ ([] : List Nat).length := by
  exact ⟨rfl, by decide⟩

/-- C8 amended: when the decode length parameter is nonzero (such as the
default `-1`), the stream holds the 2-byte length field and at least
that many payload bytes, and the payload is ASCII, the decoded value
satisfies `length = |payload bytes read|`; and encoding that decoded
value writes a length field equal to the number of payload bytes
written.  (For an inconsistent hand-built value, `String.encode` writes
`v.length` unchecked, which need not equal the payload byte count.) -/
theorem string_decode_length_invariant (lp : Int) (s : ByteStream)
    (hlp : lp ≠ 0) (h2 : 2 ≤ s.rem.length)
    (hlen : beNat (s.rem.take 2) ≤ (s.rem.drop 2).length)
    (hascii : asciiOk ((s.rem.drop 2).take (beNat (s.rem.take 2))) = true) :
    String.decode lp s =
      .ok (⟨beNat (s.rem.take 2),
            (s.rem.drop 2).take (beNat (s.rem.take 2))⟩,
           ⟨s.data, s.pos + 2 + beNat (s.rem.take 2)⟩) ∧
    ((s.rem.drop 2).take (beNat (s.rem.take 2))).length =
      beNat (s.rem.take 2) ∧
    String.encode
      ⟨beNat (s.rem.take 2), (s.rem.drop 2).take (beNat (s.rem.take 2))⟩
      [] =
      encBE 2 ((s.rem.drop 2).take (beNat (s.rem.take 2))).length ++
        (s.rem.drop 2).take (beNat (s.rem.take 2)) := by
  have hchunk : ((s.rem.drop 2).take (beNat (s.rem.take 2))).length =
      beNat (s.rem.take 2) := by
    simp only [List.length_take]
    omega
  have hrem1 : (ByteStream.rem ⟨s.data, s.pos + 2⟩) = s.rem.drop 2 := by
    simp [ByteStream.rem, List.drop_drop]
  refine ⟨?_, hchunk, ?_⟩
  · simp only [String.decode]
    rw [u16_decode_of_le s h2]
    simp only [hlp, if_neg hlp]
    rw [ByteStream.read_of_le _ (by rw [hrem1]; exact hlen), hrem1]
    simp [hascii]
  · simp only [String.encode, hchunk, List.nil_append]

/-- C8 witness: decode of `00 03 'a' 'b' 'c'` with the default length
parameter `-1` yields `length = 3` equal to the 3 payload bytes read,
and re-encoding writes the payload byte count as the length field. -/
theorem string_decode_length_invariant_witness :
    String.decode (-1) ⟨[0, 3, 97, 98, 99], 0⟩ =
      .ok (⟨3, [97, 98, 99]⟩, ⟨[0, 3, 97, 98, 99], 5⟩) ∧
    ([97, 98, 99] : List Nat).length = 3 ∧
    String.encode ⟨3, [97, 98, 99]⟩ [] =
      encBE 2 ([97, 98, 99] : List Nat).length ++ [97, 98, 99] :=
  string_decode_length_invariant (-1) ⟨[0, 3, 97, 98, 99], 0⟩
    (by decide) (by decide) (by decide) (by decide)

/-! ## Claim C10 — PrmDbRecord offset -/

/-- C10: `PrmDbRecord.decode` records the stream position from *before*
the `A5` sync-byte scan (or `None` on a non-seekable stream): whatever
record it returns reports that pre-scan position as its offset. -/
theorem prmdb_offset_recorded_before_scan (seekable : Bool)
    (s s' : ByteStream) (r : PrmDbRecordVal)
    (h : PrmDbRecord.decode seekable s = .ok (r, s')) :
    r.offset = if seekable then some s.pos else none := by
  unfold PrmDbRecord.decode at h
  simp only [] at h
  split at h
  · exact (Except.noConfusion h)
  · split at h
    · exact (Except.noConfusion h)
    · split at h
      · exact (Except.noConfusion h)
      · rw [Except.ok.injEq, Prod.mk.injEq] at h
        rw [← h.1]

/-- C10 witness: two garbage bytes precede the `A5` sync byte; the
decoded record reports offset 0 — where scanning began — not the sync
byte's position 2. -/
theorem prmdb_offset_recorded_before_scan_witness :
    (⟨some 0, 5, 7, [0xAB]⟩ : PrmDbRecordVal).offset =
      if true then some 0 else none :=
  prmdb_offset_recorded_before_scan true
    ⟨[0x42, 0x13, 0xA5, 0, 0, 0, 5, 0, 0, 0, 7, 0xAB], 0⟩
    ⟨[0x42, 0x13, 0xA5, 0, 0, 0, 5, 0, 0, 0, 7, 0xAB], 12⟩
    ⟨some 0, 5, 7, [0xAB]⟩ (by rfl)

/-! ## Claims C5 and C9 — Packet.decode on unknown / UNKNOWN tags -/

/-- A successful fundamental decode determines the value and the
resulting stream. -/
theorem fundamental_decode_ok {V : Type} {width : Nat}
    {interp : List Nat → V} {s s' : ByteStream} {v : V}
    (h : FundamentalType.decode width interp s = .ok (v, s')) :
    v = interp (s.rem.take width) ∧
      s' = ⟨s.data, s.pos + (s.rem.take width).length⟩ := by
  simp only [FundamentalType.decode, ByteStream.read] at h
  split at h
  · exact (Except.noConfusion h)
  · split at h
    · exact (Except.noConfusion h)
    · rw [Except.ok.injEq, Prod.mk.injEq] at h
      refine ⟨h.1.symm, ?_⟩
      rw [← h.2]
      rfl

/-- C5: for every decoded packet-descriptor value outside the named
`Packet.Type` constants, `Packet.decode` does not fail: it emits the
unknown-type warning, keeps the raw decoded integer as the type value
(the `INVALID` namespace), and captures all remaining bytes of the
confined sub-stream as an opaque `Buffer` payload. -/
theorem packet_decode_unknown_tag_keeps_framing (cfg : Config)
    (s : ByteStream) (h4 : 4 ≤ s.rem.length)
    (hv : PacketType.fromVal (beNat (s.rem.take 4)) = none) :
    Packet.decode cfg s =
      .ok ((⟨.invalid (beNat (s.rem.take 4)), .buffer (s.rem.drop 4)⟩, true),
           ⟨s.data, s.data.length⟩) := by
  have hpos : s.pos + 4 ≤ s.data.length := by
    simp only [ByteStream.rem, List.length_drop] at h4
    omega
  unfold Packet.decode
  rw [show U32.decode s = FundamentalType.decode 4 beNat s from rfl,
    fundamental_decode_of_le beNat s (by omega) h4]
  simp only [hv]
  rw [ByteStream.readRest_eq _ (by simpa using hpos)]
  simp only [ByteStream.rem, List.drop_drop]

/-- C5 witness: descriptor `00 00 00 07` (7 is not a named constant)
followed by three payload bytes: decode succeeds with a warning, type
value 7, and the payload bytes captured as an opaque buffer. -/
theorem packet_decode_unknown_tag_keeps_framing_witness :
    Packet.decode defaultConfig ⟨[0, 0, 0, 7, 1, 2, 3], 0⟩ =
      .ok ((⟨.invalid 7, .buffer [1, 2, 3]⟩, true),
           ⟨[0, 0, 0, 7, 1, 2, 3], 7⟩) :=
  packet_decode_unknown_tag_keeps_framing defaultConfig
    ⟨[0, 0, 0, 7, 1, 2, 3], 0⟩ (by decide) (by decide)

/-- C9: a packet-descriptor value of exactly `0xFF` decodes to the named
constant `UNKNOWN` (not the fabricated `INVALID` namespace) with the
remaining sub-stream bytes captured as an opaque buffer and *no* warning
emitted; and in every successful decode, the unknown-packet-type warning
is emitted exactly when the descriptor value lies outside the
`Packet.Type` enumeration. -/
theorem packet_decode_ff_is_named_unknown (cfg : Config) (s : ByteStream) :
    (4 ≤ s.rem.length → beNat (s.rem.take 4) = 0xff →
      Packet.decode cfg s =
        .ok ((⟨.valid .UNKNOWN, .buffer (s.rem.drop 4)⟩, false),
             ⟨s.data, s.data.length⟩)) ∧
    (∀ p w s', Packet.decode cfg s = .ok ((p, w), s') →
      (w = true ↔ PacketType.fromVal (beNat (s.rem.take 4)) = none)) := by
  constructor
  · intro h4 hv
    have hpos : s.pos + 4 ≤ s.data.length := by
      simp only [ByteStream.rem, List.length_drop] at h4
      omega
    unfold Packet.decode
    rw [show U32.decode s = FundamentalType.decode 4 beNat s from rfl,
      fundamental_decode_of_le beNat s (by omega) h4]
    simp only [hv]
    rw [show PacketType.fromVal 0xff = some .UNKNOWN from rfl]
    simp only []
    rw [ByteStream.readRest_eq _ (by simpa using hpos)]
    simp only [ByteStream.rem, List.drop_drop]
  · intro p w s' h
    unfold Packet.decode at h
    split at h
    · exact (Except.noConfusion h)
    next v s1 heq =>
      obtain ⟨hv, -⟩ := fundamental_decode_ok heq
      subst hv
      split at h
      next hnone =>
        simp only [] at h
        rw [Except.ok.injEq, Prod.mk.injEq, Prod.mk.injEq] at h
        rw [← h.1.2, hnone]
        simp
      next t hsome =>
        have hw : w = false := by
          split at h
          all_goals first
            | (split at h
               · exact (Except.noConfusion h)
               · rw [Except.ok.injEq, Prod.mk.injEq, Prod.mk.injEq] at h
                 exact h.1.2.symm)
            | (simp only [] at h
               rw [Except.ok.injEq, Prod.mk.injEq, Prod.mk.injEq] at h
               exact h.1.2.symm)
        rw [hw, hsome]
        simp

/-- C9 witness: descriptor `00 00 00 FF` followed by two payload bytes
decodes to the named `UNKNOWN` constant with the rest as an opaque
buffer and no warning; the warning flag of that successful decode
matches the descriptor lying outside the enumeration (it does not). -/
theorem packet_decode_ff_is_named_unknown_witness :
    Packet.decode defaultConfig ⟨[0, 0, 0, 0xff, 9, 8], 0⟩ =
      .ok ((⟨.valid .UNKNOWN, .buffer [9, 8]⟩, false),
           ⟨[0, 0, 0, 0xff, 9, 8], 6⟩) ∧
    (false = true ↔
      PacketType.fromVal
        (beNat ((ByteStream.rem ⟨[0, 0, 0, 0xff, 9, 8], 0⟩).take 4)) =
        none) :=
  ⟨(packet_decode_ff_is_named_unknown defaultConfig
      ⟨[0, 0, 0, 0xff, 9, 8], 0⟩).1 (by decide) (by decide),
   (packet_decode_ff_is_named_unknown defaultConfig
      ⟨[0, 0, 0, 0xff, 9, 8], 0⟩).2
     ⟨.valid .UNKNOWN, .buffer [9, 8]⟩ false ⟨[0, 0, 0, 0xff, 9, 8], 6⟩
     (by rfl)⟩

/-! ## Claim C6 — FilePacket unknown sub-type -/

/-- C6 counterexample: a ComLoggerRecord holding a FILE packet with
sub-type `7` makes `FilePacket.decode` raise `ValueError`, which is *not*
caught anywhere: the main loop (which catches only `BrokenPipeError`)
terminates with the error, the record is not "dropped with a diagnostic",
and framing does **not** continue at the next record — even though the
following bytes hold a perfectly decodable IDLE record, as the second
conjunct shows. -/
theorem filepacket_unknown_subtype_aborts_counterexample :
    mainLoop 2 (Record.decode 2 true defaultConfig)
      ⟨[0x00, 0x09, 0, 0, 0, 3, 7, 0, 0, 0, 1,
        0x00, 0x04, 0, 0, 0, 5], 0⟩ =
      ([], some .valueError) ∧
    Record.decode 2 true defaultConfig ⟨[0x00, 0x04, 0, 0, 0, 5], 0⟩ =
      .ok ((⟨some 0, 4, ⟨.valid .IDLE, .buffer []⟩⟩, false),
           ⟨[0x00, 0x04, 0, 0, 0, 5], 6⟩) := by
  exact ⟨rfl, rfl⟩

/-- C6 amended: `FilePacket.decode` fails for every sub-type byte other
than START(0), DATA(1), END(2), CANCEL(3) — with `ValueError` from the
enum constructor for values outside the `FilePacket.Type` enumeration,
and with the explicit `KeyError` for `NONE` (255), which passes the enum
constructor and reaches the dispatch `else` after `sequence_index` is
read.  The error then propagates uncaught: the main loop terminates with
it, dropping no record and decoding no further records. -/
theorem filepacket_unknown_subtype_fails_record :
    (∀ (s : ByteStream) (b : Nat) (t : List Nat), s.rem = b :: t →
      FilePacketType.fromVal b = none →
      FilePacket.decode s = .error .valueError) ∧
    (∀ (s : ByteStream) (t : List Nat), s.rem = 255 :: t → 4 ≤ t.length →
      FilePacket.decode s = .error .keyError) ∧
    (∀ {α : Type} (fuel : Nat)
       (dec : ByteStream → Except Err (α × ByteStream)) (u : ByteStream)
       (e : Err), e ≠ .endOfStream → dec u = .error e →
      mainLoop (fuel + 1) dec u = ([], some e)) := by
  refine ⟨?_, ?_, ?_⟩
  · intro s b t hrem hb
    unfold FilePacket.decode
    rw [show U8.decode s = FundamentalType.decode 1 beNat s from rfl,
      fundamental_decode_of_le beNat s (by omega) (by rw [hrem]; simp)]
    rw [hrem]
    simp only [List.take_succ_cons, List.take_zero]
    rw [show beNat [b] = b by simp [beNat]]
    rw [hb]
  · intro s t hrem h4
    unfold FilePacket.decode
    rw [show U8.decode s = FundamentalType.decode 1 beNat s from rfl,
      fundamental_decode_of_le beNat s (by omega) (by rw [hrem]; simp)]
    rw [hrem]
    simp only [List.take_succ_cons, List.take_zero]
    rw [show beNat [255] = 255 by simp [beNat]]
    rw [show FilePacketType.fromVal 255 = some .NONE from rfl]
    simp only []
    have hrem1 : (ByteStream.rem ⟨s.data, s.pos + 1⟩) = t := by
      simp only [ByteStream.rem]
      rw [← List.drop_drop]
      show (s.rem).drop 1 = t
      rw [hrem]
      rfl
    rw [show U32.decode ⟨s.data, s.pos + 1⟩ =
        FundamentalType.decode 4 beNat ⟨s.data, s.pos + 1⟩ from rfl,
      fundamental_decode_of_le beNat _ (by omega) (by rw [hrem1]; omega)]
  · intro α fuel dec u e he hdec
    unfold mainLoop
    rw [hdec]
    match e, he with
    | .structError, _ => rfl
    | .valueError, _ => rfl
    | .keyError, _ => rfl
    | .unicodeError, _ => rfl
    | .assertionError, _ => rfl

/-- C6 witness: sub-type byte 7 raises `ValueError`; sub-type byte 255
(`NONE`) with a sequence index present raises `KeyError`; and a main
loop over a decoder failing with `ValueError` terminates with that error
and an empty record list. -/
theorem filepacket_unknown_subtype_fails_record_witness :
    FilePacket.decode ⟨[7, 0, 0, 0, 1], 0⟩ = .error .valueError ∧
    FilePacket.decode ⟨[255, 0, 0, 0, 1], 0⟩ = .error .keyError ∧
    mainLoop 1 (fun _ => (.error .valueError :
        Except Err (Nat × ByteStream))) ⟨[], 0⟩ = ([], some .valueError) :=
  ⟨filepacket_unknown_subtype_fails_record.1 ⟨[7, 0, 0, 0, 1], 0⟩ 7
      [0, 0, 0, 1] (by rfl) (by decide),
   filepacket_unknown_subtype_fails_record.2.1 ⟨[255, 0, 0, 0, 1], 0⟩
      [0, 0, 0, 1] (by rfl) (by decide),
   filepacket_unknown_subtype_fails_record.2.2 0 _ ⟨[], 0⟩ .valueError
      (by decide) (by rfl)⟩

/-! ## Claim C2 — record framing confines the packet to a sub-stream -/

/-- A command packet's "read the rest" buffer cannot exceed the backing
data of the stream it was decoded from. -/
theorem command_decode_raw_le {s s' : ByteStream} {c : CommandPacket}
    (h : CommandPacket.decode s = .ok (c, s')) :
    c.arguments_raw.length ≤ s.data.length := by
  unfold CommandPacket.decode at h
  split at h
  · exact (Except.noConfusion h)
  next opcode s1 heq =>
    obtain ⟨hd, -⟩ := fundamental_decode_data heq
    simp only [] at h
    rw [Except.ok.injEq, Prod.mk.injEq] at h
    rw [← h.1]
    simp only [ByteStream.readRest, hd]
    simp

/-- A telemetry packet's "read the rest" buffer cannot exceed the backing
data of the stream it was decoded from. -/
theorem telem_decode_raw_le {cfg : Config} {s s' : ByteStream}
    {c : TelemPacket} (h : TelemPacket.decode cfg s = .ok (c, s')) :
    c.value_raw.length ≤ s.data.length := by
  unfold TelemPacket.decode at h
  split at h
  · exact (Except.noConfusion h)
  next id s1 heq1 =>
    obtain ⟨hd1, -⟩ := fundamental_decode_data heq1
    split at h
    · exact (Except.noConfusion h)
    next time s2 heq2 =>
      obtain ⟨hd2, -⟩ := time_decode_data heq2
      simp only [] at h
      rw [Except.ok.injEq, Prod.mk.injEq] at h
      rw [← h.1]
      simp only [ByteStream.readRest, hd2, hd1]
      simp

/-- An event packet's "read the rest" buffer cannot exceed the backing
data of the stream it was decoded from. -/
theorem event_decode_raw_le {cfg : Config} {s s' : ByteStream}
    {c : EventPacket} (h : EventPacket.decode cfg s = .ok (c, s')) :
    c.arguments_raw.length ≤ s.data.length := by
  unfold EventPacket.decode at h
  split at h
  · exact (Except.noConfusion h)
  next id s1 heq1 =>
    obtain ⟨hd1, -⟩ := fundamental_decode_data heq1
    split at h
    · exact (Except.noConfusion h)
    next time s2 heq2 =>
      obtain ⟨hd2, -⟩ := time_decode_data heq2
      simp only [] at h
      rw [Except.ok.injEq, Prod.mk.injEq] at h
      rw [← h.1]
      simp only [ByteStream.readRest, hd2, hd1]
      simp

/-- Every "read the rest" payload of a successfully decoded packet is
bounded by the length of the backing data of the stream it was decoded
from — which, under `Record.decode`, is the `packet_size`-byte
sub-stream. -/
theorem Packet.decode_rawRestLen {cfg : Config} {s s' : ByteStream}
    {p : Packet} {w : Bool}
    (h : Packet.decode cfg s = .ok ((p, w), s')) :
    p.rawRestLen ≤ s.data.length := by
  unfold Packet.decode at h
  split at h
  · exact (Except.noConfusion h)
  next v s1 heq =>
    obtain ⟨hd, -⟩ := fundamental_decode_data heq
    split at h
    · simp only [] at h
      rw [Except.ok.injEq, Prod.mk.injEq, Prod.mk.injEq] at h
      rw [← h.1.1]
      simp only [Packet.rawRestLen, ByteStream.readRest, hd]
      simp
    next t hsome =>
      split at h
      · split at h
        · exact (Except.noConfusion h)
        next c s2 heqc =>
          rw [Except.ok.injEq, Prod.mk.injEq, Prod.mk.injEq] at h
          rw [← h.1.1]
          simp only [Packet.rawRestLen]
          calc c.arguments_raw.length ≤ s1.data.length :=
                command_decode_raw_le heqc
            _ = s.data.length := by rw [hd]
      · split at h
        · exact (Except.noConfusion h)
        next c s2 heqc =>
          rw [Except.ok.injEq, Prod.mk.injEq, Prod.mk.injEq] at h
          rw [← h.1.1]
          simp only [Packet.rawRestLen]
          calc c.value_raw.length ≤ s1.data.length :=
                telem_decode_raw_le heqc
            _ = s.data.length := by rw [hd]
      · split at h
        · exact (Except.noConfusion h)
        next c s2 heqc =>
          rw [Except.ok.injEq, Prod.mk.injEq, Prod.mk.injEq] at h
          rw [← h.1.1]
          simp only [Packet.rawRestLen]
          calc c.arguments_raw.length ≤ s1.data.length :=
                event_decode_raw_le heqc
            _ = s.data.length := by rw [hd]
      · split at h
        · exact (Except.noConfusion h)
        next c s2 heqc =>
          rw [Except.ok.injEq, Prod.mk.injEq, Prod.mk.injEq] at h
          rw [← h.1.1]
          simp [Packet.rawRestLen]
      · simp only [] at h
        rw [Except.ok.injEq, Prod.mk.injEq, Prod.mk.injEq] at h
        rw [← h.1.1]
        simp only [Packet.rawRestLen, ByteStream.readRest, hd]
        simp

/-- C2: `Record.decode` (for any size-field width, covering the `U16` of
ComLoggerRecord and the `U32` of FprimeGdsRecord) reads the size field,
then exactly `packet_size` bytes into an in-memory sub-stream, and
decodes the Packet only from that sub-stream: the record's outcome is
fully determined by `Packet.decode` on the `packet_size`-byte slice, the
outer stream advances by exactly `width + packet_size` bytes past the
record's start, and every "read the rest" payload inside the packet is
bounded by `packet_size`. -/
theorem record_decode_substream_confinement (szW : Nat) (seekable : Bool)
    (cfg : Config) (s : ByteStream) (hw : 0 < szW)
    (h1 : szW ≤ s.rem.length)
    (h2 : szW + beNat (s.rem.take szW) ≤ s.rem.length) :
    (∀ p w u',
      Packet.decode cfg
          ⟨(s.rem.drop szW).take (beNat (s.rem.take szW)), 0⟩ =
        .ok ((p, w), u') →
      Record.decode szW seekable cfg s =
        .ok ((⟨if seekable then some s.pos else none,
               beNat (s.rem.take szW), p⟩, w),
             ⟨s.data, s.pos + szW + beNat (s.rem.take szW)⟩) ∧
      p.rawRestLen ≤ beNat (s.rem.take szW)) ∧
    (∀ e,
      Packet.decode cfg
          ⟨(s.rem.drop szW).take (beNat (s.rem.take szW)), 0⟩ =
        .error e →
      Record.decode szW seekable cfg s = .error e) := by
  have hs1rem : (ByteStream.rem ⟨s.data, s.pos + szW⟩) = s.rem.drop szW := by
    simp [ByteStream.rem, List.drop_drop]
  have hle : beNat (s.rem.take szW) ≤
      (ByteStream.rem ⟨s.data, s.pos + szW⟩).length := by
    rw [hs1rem]
    simp only [List.length_drop]
    omega
  have hchunklen :
      ((s.rem.drop szW).take (beNat (s.rem.take szW))).length =
        beNat (s.rem.take szW) := by
    simp only [List.length_take, List.length_drop]
    omega
  constructor
  · intro p w u' hp
    constructor
    · unfold Record.decode
      rw [fundamental_decode_of_le beNat s hw h1]
      simp only []
      rw [ByteStream.read_of_le _ hle, hs1rem, hp]
    · calc p.rawRestLen ≤
          ((s.rem.drop szW).take (beNat (s.rem.take szW))).length :=
            Packet.decode_rawRestLen hp
        _ = beNat (s.rem.take szW) := hchunklen
  · intro e hp
    unfold Record.decode
    rw [fundamental_decode_of_le beNat s hw h1]
    simp only []
    rw [ByteStream.read_of_le _ hle, hs1rem, hp]

/-- C2 witness: a ComLoggerRecord (`szW = 2`) with `packet_size = 4` and
an IDLE packet: the outer stream advances by `2 + 4 = 6` bytes, the
packet equals the decode of the 4-byte sub-stream, and its payload is
bounded by 4. -/
theorem record_decode_substream_confinement_witness :
    Record.decode 2 true defaultConfig ⟨[0, 4, 0, 0, 0, 5], 0⟩ =
      .ok ((⟨some 0, 4, ⟨.valid .IDLE, .buffer []⟩⟩, false),
           ⟨[0, 4, 0, 0, 0, 5], 6⟩) ∧
    Packet.rawRestLen ⟨.valid .IDLE, .buffer []⟩ ≤ 4 :=
  (record_decode_substream_confinement 2 true defaultConfig
      ⟨[0, 4, 0, 0, 0, 5], 0⟩ (by decide) (by decide) (by decide)).1
    ⟨.valid .IDLE, .buffer []⟩ false ⟨[0, 0, 0, 5], 4⟩ (by rfl)

/-! ## Claim C4 — sync-word scan -/

/-- Unfolding equation of `scanList` on a non-empty stream. -/
theorem scanList_cons (sync : List Nat) (k b : Nat) (t : List Nat) :
    scanList sync k (b :: t) =
      if sync.length ≤ k then some (b :: t)
      else scanList sync (syncStep sync k b) t := rfl

/-- Once the whole sync word has been matched the loop exits, leaving
the stream untouched. -/
theorem scanList_done (sync : List Nat) (k : Nat) (l : List Nat)
    (h : sync.length ≤ k) : scanList sync k l = some l := by
  cases l with
  | nil => simp [scanList, h]
  | cons b t => simp [scanList, h]

/-- Scanning a stream that starts with the sync word consumes exactly the
sync word. -/
theorem scanList_sync_leading (Y : List Nat) :
    scanList gdsSyncWord 0 (gdsSyncWord ++ Y) = some Y := by
  show scanList gdsSyncWord 0 (0xde :: 0xad :: 0xbe :: 0xef :: Y) = some Y
  rw [scanList_cons, scanList_cons, scanList_cons, scanList_cons]
  norm_num [syncStep, gdsSyncWord]
  exact scanList_done _ _ _ (by norm_num [gdsSyncWord])

/-- The KMP-style rollback: a partial match that fails at position
`k > 0` restarts at position 0 *without advancing past the byte that
broke the match* — scanning on from state `k` behaves exactly like
scanning from state 0 on a stream still containing that byte. -/
theorem scanList_reset (k c : Nat) (t : List Nat) (hk0 : 0 < k) (hk4 : k < 4)
    (hc : c ≠ gdsSyncWord.getD k 256) :
    scanList gdsSyncWord k (c :: t) = scanList gdsSyncWord 0 (c :: t) := by
  rw [scanList_cons, scanList_cons]
  have h1 : ¬ (gdsSyncWord.length ≤ k) := by simp [gdsSyncWord]; omega
  have h2 : ¬ (gdsSyncWord.length ≤ 0) := by simp [gdsSyncWord]
  rw [if_neg h1, if_neg h2]
  congr 1
  rw [syncStep, if_neg hc, if_pos hk0, syncStep]
  by_cases h : c = gdsSyncWord.getD 0 256
  · rw [if_pos h, if_pos h]
  · rw [if_neg h, if_neg h]
    norm_num

/-- A byte that is not `DE` is skipped when no partial match is
pending. -/
theorem scanList_step0 (b : Nat) (t : List Nat) (hb : b ≠ 0xde) :
    scanList gdsSyncWord 0 (b :: t) = scanList gdsSyncWord 0 t := by
  rw [scanList_cons, if_neg (by norm_num [gdsSyncWord])]
  congr 1
  simp [syncStep, gdsSyncWord, hb]

/-- A byte matching the expected sync-word position advances the partial
match. -/
theorem scanList_advance (k : Nat) (b : Nat) (t : List Nat) (hk : k < 4)
    (hb : b = gdsSyncWord.getD k 256) :
    scanList gdsSyncWord k (b :: t) = scanList gdsSyncWord (k + 1) t := by
  rw [scanList_cons, if_neg (by simp [gdsSyncWord]; omega)]
  congr 1
  rw [syncStep, if_pos hb]

/-- The sync scan consumes the stream exactly up to and including the
first occurrence of the sync word: if no occurrence of `DE AD BE EF`
starts before position `|X|`, scanning `X ++ SYNC ++ Y` returns exactly
`Y`.  Fuel-indexed induction on `|X|`: each loop round consumes one,
two, or three leading bytes of `X` (no byte of the sync word other than
its first is `DE`, so a partial match can never hide a true occurrence
start). -/
theorem scanList_first_occ_aux : ∀ (n : Nat) (X Y : List Nat),
    X.length ≤ n →
    (∀ i, i < X.length →
      ¬ (gdsSyncWord <+: (X ++ (gdsSyncWord ++ Y)).drop i)) →
    scanList gdsSyncWord 0 (X ++ (gdsSyncWord ++ Y)) = some Y := by
  intro n
  induction n with
  | zero =>
    intro X Y hlen _
    obtain rfl : X = [] := List.length_eq_zero.mp (Nat.le_zero.mp hlen)
    simpa using scanList_sync_leading Y
  | succ n ih =>
    intro X Y hlen hocc
    cases X with
    | nil => simpa using scanList_sync_leading Y
    | cons b X' =>
      rw [List.cons_append]
      by_cases hb : b = 0xde
      case neg =>
        rw [scanList_step0 b _ hb]
        apply ih X' Y (by simp at hlen; omega)
        intro i hi
        have h := hocc (i + 1) (by simp; omega)
        rw [List.cons_append, List.drop_succ_cons] at h
        exact h
      case pos =>
        subst hb
        rw [scanList_advance 0 0xde _ (by norm_num) (by decide)]
        have h0 := hocc 0 (by simp)
        rw [List.drop_zero] at h0
        cases X' with
        | nil =>
          rw [List.nil_append]
          rw [show gdsSyncWord ++ Y = 0xde :: (0xad :: 0xbe :: 0xef :: Y)
            from rfl]
          rw [scanList_reset 1 0xde _ (by norm_num) (by norm_num) (by decide)]
          rw [show (0xde : Nat) :: (0xad :: 0xbe :: 0xef :: Y) =
            gdsSyncWord ++ Y from rfl]
          exact scanList_sync_leading Y
        | cons c Xb =>
          rw [List.cons_append]
          by_cases hc : c = 0xad
          case neg =>
            rw [scanList_reset 1 c _ (by norm_num) (by norm_num)
              (by simpa [gdsSyncWord] using hc)]
            rw [← List.cons_append]
            apply ih (c :: Xb) Y (by simp at hlen ⊢; omega)
            intro i hi
            have h := hocc (i + 1) (by simp at hi ⊢; omega)
            rw [List.cons_append, List.drop_succ_cons] at h
            exact h
          case pos =>
            subst hc
            rw [scanList_advance 1 0xad _ (by norm_num) (by decide)]
            have h1 : ¬ (([0xbe, 0xef] : List Nat) <+:
                (Xb ++ (gdsSyncWord ++ Y))) := by
              intro hpre
              apply h0
              rw [List.cons_append, List.cons_append]
              exact List.cons_prefix_cons.mpr ⟨rfl,
                List.cons_prefix_cons.mpr ⟨rfl, hpre⟩⟩
            cases Xb with
            | nil =>
              rw [List.nil_append]
              rw [show gdsSyncWord ++ Y = 0xde :: (0xad :: 0xbe :: 0xef :: Y)
                from rfl]
              rw [scanList_reset 2 0xde _ (by norm_num) (by norm_num)
                (by decide)]
              rw [show (0xde : Nat) :: (0xad :: 0xbe :: 0xef :: Y) =
                gdsSyncWord ++ Y from rfl]
              exact scanList_sync_leading Y
            | cons d Xc =>
              rw [List.cons_append]
              by_cases hd : d = 0xbe
              case neg =>
                rw [scanList_reset 2 d _ (by norm_num) (by norm_num)
                  (by simpa [gdsSyncWord] using hd)]
                rw [← List.cons_append]
                apply ih (d :: Xc) Y (by simp at hlen ⊢; omega)
                intro i hi
                have h := hocc (i + 2) (by simp at hi ⊢; omega)
                rw [List.cons_append, List.cons_append, List.drop_succ_cons,
                  List.drop_succ_cons] at h
                exact h
              case pos =>
                subst hd
                rw [scanList_advance 2 0xbe _ (by norm_num) (by decide)]
                have h2 : ¬ (([0xef] : List Nat) <+:
                    (Xc ++ (gdsSyncWord ++ Y))) := by
                  intro hpre
                  apply h1
                  rw [List.cons_append]
                  exact List.cons_prefix_cons.mpr ⟨rfl, hpre⟩
                cases Xc with
                | nil =>
                  rw [List.nil_append]
                  rw [show gdsSyncWord ++ Y =
                    0xde :: (0xad :: 0xbe :: 0xef :: Y) from rfl]
                  rw [scanList_reset 3 0xde _ (by norm_num) (by norm_num)
                    (by decide)]
                  rw [show (0xde : Nat) :: (0xad :: 0xbe :: 0xef :: Y) =
                    gdsSyncWord ++ Y from rfl]
                  exact scanList_sync_leading Y
                | cons e Xd =>
                  rw [List.cons_append]
                  by_cases he : e = 0xef
                  case pos =>
                    exfalso
                    apply h2
                    subst he
                    rw [List.cons_append]
                    exact List.cons_prefix_cons.mpr ⟨rfl, List.nil_prefix⟩
                  case neg =>
                    rw [scanList_reset 3 e _ (by norm_num) (by norm_num)
                      (by simpa [gdsSyncWord] using he)]
                    rw [← List.cons_append]
                    apply ih (e :: Xd) Y (by simp at hlen ⊢; omega)
                    intro i hi
                    have h := hocc (i + 3) (by simp at hi ⊢; omega)
                    rw [List.cons_append, List.cons_append, List.cons_append,
                      List.drop_succ_cons, List.drop_succ_cons,
                      List.drop_succ_cons] at h
                    exact h

/-- C4 counterexample: with `X = SYNC` and `Y = []` the stream
`X ++ SYNC ++ Y` is two back-to-back sync words; the scan stops after
the *first* one, leaving the second sync word unread — it consumes
`4 = |SYNC|` bytes, not `|X| + |SYNC| = 8` as the claim's unrestricted
quantification over `X` demands. -/
theorem sync_scan_consumption_counterexample :
    scanList gdsSyncWord 0 (gdsSyncWord ++ gdsSyncWord ++ []) =
      some [0xde, 0xad, 0xbe, 0xef] ∧
    some [0xde, 0xad, 0xbe, 0xef] ≠ some ([] : List Nat) := by
  exact ⟨rfl, by decide⟩

/-- C4 amended: restricted to decompositions where `X` contains no
earlier occurrence of the sync word, the scan consumes exactly
`|X| + |SYNC|` bytes (it returns exactly `Y`); scanning
`DE AD DE AD BE EF` succeeds and leaves the scanner immediately after
the final `EF`; and a partial match failing at `k > 0` restarts at
position 0 without advancing past the byte that broke the match. -/
theorem sync_scan_first_occurrence :
    (∀ X Y : List Nat,
      (∀ i, i < X.length →
        ¬ (gdsSyncWord <+: (X ++ gdsSyncWord ++ Y).drop i)) →
      scanList gdsSyncWord 0 (X ++ gdsSyncWord ++ Y) = some Y) ∧
    scanList gdsSyncWord 0 [0xde, 0xad, 0xde, 0xad, 0xbe, 0xef] =
      some [] ∧
    (∀ (k c : Nat) (t : List Nat), 0 < k → k < gdsSyncWord.length →
      c ≠ gdsSyncWord.getD k 256 →
      scanList gdsSyncWord k (c :: t) = scanList gdsSyncWord 0 (c :: t)) := by
  refine ⟨?_, by rfl, ?_⟩
  · intro X Y hocc
    rw [List.append_assoc]
    apply scanList_first_occ_aux X.length X Y (le_refl _)
    intro i hi
    rw [← List.append_assoc]
    exact hocc i hi
  · intro k c t hk0 hk4 hc
    exact scanList_reset k c t hk0 (by simpa [gdsSyncWord] using hk4) hc

/-- C4 witness: scanning `AA BB DE AD BE EF 01` consumes exactly
`|X| + 4 = 6` bytes, leaving `[0x01]`. -/
theorem sync_scan_first_occurrence_witness :
    scanList gdsSyncWord 0 ([0xAA, 0xBB] ++ gdsSyncWord ++ [0x01]) =
      some [0x01] :=
  sync_scan_first_occurrence.1 [0xAA, 0xBB] [0x01] (by decide)

end Fpdt
